import Mathlib

set_option autoImplicit false

/-!
Verification of the SNP heat-map pipeline (src/main.py).

Python dictionaries are modelled as association lists with Python's update
semantics: assigning to an existing key updates the value in place, assigning
to a fresh key appends the pair at the end.  `compile_gene_snp`,
`make_data_matrix` and `generate_cumulative_list` are translated from the
source; Python exceptions are modelled with `Except PyError` (and `Option`
for the single index-error site inside the fill loop).
-/

/-- Python dict lookup `d[k]` as an option: first pair whose key equals `k`. -/
def alookup {α β : Type} [DecidableEq α] : List (α × β) → α → Option β
  | [], _ => none
  | p :: ps, k => if p.1 = k then some p.2 else alookup ps k

/-- Python dict assignment `d[k] = v`: update in place when the key exists,
append the new pair otherwise. -/
def aset {α β : Type} [DecidableEq α] : List (α × β) → α → β → List (α × β)
  | [], k, v => [(k, v)]
  | p :: ps, k, v => if p.1 = k then (k, v) :: ps else p :: aset ps k v

/-- Python membership test `k in d`. -/
def acontains {α β : Type} [DecidableEq α] (l : List (α × β)) (k : α) : Bool :=
  (alookup l k).isSome

/-- The aggregate `dict[int, dict[str, int]]` built by `compile_gene_snp`:
SNP-count to (species label to occurrence count). -/
abbrev Agg : Type := List (Int × List (String × Int))

@[simp] theorem alookup_nil {α β : Type} [DecidableEq α] (k : α) :
    alookup ([] : List (α × β)) k = none := rfl

theorem alookup_cons {α β : Type} [DecidableEq α] (p : α × β) (ps : List (α × β)) (k : α) :
    alookup (p :: ps) k = if p.1 = k then some p.2 else alookup ps k := rfl

theorem alookup_aset {α β : Type} [DecidableEq α] (l : List (α × β)) (k k' : α) (v : β) :
    alookup (aset l k v) k' = if k = k' then some v else alookup l k' := by
  induction l with
  | nil => simp [aset, alookup_cons]
  | cons p ps ih =>
      simp only [aset]
      by_cases hp : p.1 = k
      · rw [if_pos hp, alookup_cons, alookup_cons, hp]
        by_cases hk : k = k' <;> simp [hk]
      · rw [if_neg hp, alookup_cons, alookup_cons, ih]
        by_cases hpk : p.1 = k'
        · rw [if_pos hpk, if_pos hpk, if_neg (fun h => hp (hpk.trans h.symm))]
        · rw [if_neg hpk, if_neg hpk]

theorem alookup_isSome_iff {α β : Type} [DecidableEq α] (l : List (α × β)) (k : α) :
    (alookup l k).isSome ↔ k ∈ l.map Prod.fst := by
  induction l with
  | nil => simp
  | cons p ps ih =>
      rw [alookup_cons]
      by_cases h : p.1 = k
      · subst h
        simp
      · have h2 : ¬ (k = p.1) := fun hh => h hh.symm
        simp [h, h2, ih]

theorem alookup_eq_none_of_not_mem {α β : Type} [DecidableEq α]
    {l : List (α × β)} {k : α} (h : k ∉ l.map Prod.fst) : alookup l k = none := by
  have h2 := (alookup_isSome_iff l k).not.mpr h
  cases hl : alookup l k with
  | none => rfl
  | some v => exact absurd (by rw [hl]; rfl) h2

theorem mem_of_alookup_eq_some {α β : Type} [DecidableEq α]
    {l : List (α × β)} {k : α} {v : β} (h : alookup l k = some v) : k ∈ l.map Prod.fst :=
  (alookup_isSome_iff l k).mp (by rw [h]; rfl)

/-! ## The aggregator (src/main.py, `compile_gene_snp`, lines 220-253) -/

/-- One iteration of the loop body of `compile_gene_snp` (source lines 240-251):
record one gene with `snp_count` SNPs for species `group`.  The `getD []` after
the containment fix-up can never fall back to its default. -/
def compileStep (group : String) (d : Agg) (snp_count : Int) : Agg :=
  let d1 : Agg := if acontains d snp_count then d else aset d snp_count []
  let inner1 : List (String × Int) := (alookup d1 snp_count).getD []
  let inner2 : List (String × Int) :=
    if acontains inner1 group then inner1 else aset inner1 group 0
  aset d1 snp_count (aset inner2 group ((alookup inner2 group).getD 0 + 1))

/-- `compile_gene_snp` (source lines 220-253).  `genes_snp` stands for the
items of the gene-to-SNP-count dictionary (values already integers). -/
def compile_gene_snp (genes_snp : List (String × Int)) (dict_of_number : Agg := [])
    (group : String := "None") : Agg :=
  genes_snp.foldl (fun d p => compileStep group d p.2) dict_of_number

/-- Lookup of the inner occurrence count: `aggregate[c][g]` when present. -/
def innerLookup (d : Agg) (c : Int) (g : String) : Option Int :=
  alookup ((alookup d c).getD []) g

/-- Occurrence count with default 0 for absent species or absent bucket. -/
def lookupCount (d : Agg) (c : Int) (g : String) : Int :=
  (innerLookup d c g).getD 0

/-- Number of table entries (genes) carrying SNP-count `c`. -/
def countVal (t : List (String × Int)) (c : Int) : Nat :=
  (t.filter (fun p => p.2 == c)).length

/-- Equality of aggregates as mappings of mappings: same outer keys, and the
inner mappings agree on every species label. -/
def EquivAgg (a b : Agg) : Prop :=
  ∀ c : Int, acontains a c = acontains b c ∧ ∀ g : String, innerLookup a c g = innerLookup b c g

theorem compileStep_of_bucket_absent {group : String} {d : Agg} {c0 : Int}
    (h : alookup d c0 = none) :
    compileStep group d c0 = aset (aset d c0 []) c0 [(group, 1)] := by
  unfold compileStep acontains
  simp [h, alookup_aset, alookup_cons, aset]

theorem compileStep_of_species_absent {group : String} {d : Agg} {c0 : Int}
    {inn : List (String × Int)} (hd : alookup d c0 = some inn)
    (hin : alookup inn group = none) :
    compileStep group d c0 = aset d c0 (aset (aset inn group 0) group 1) := by
  unfold compileStep acontains
  simp [hd, hin, alookup_aset]

theorem compileStep_of_species_present {group : String} {d : Agg} {c0 : Int}
    {inn : List (String × Int)} {w : Int} (hd : alookup d c0 = some inn)
    (hin : alookup inn group = some w) :
    compileStep group d c0 = aset d c0 (aset inn group (w + 1)) := by
  unfold compileStep acontains
  simp [hd, hin]

theorem acontains_compileStep (group : String) (d : Agg) (c0 c : Int) :
    acontains (compileStep group d c0) c = (acontains d c || decide (c = c0)) := by
  have main : ∀ inn' d', compileStep group d c0 = aset d' c0 inn' →
      (∀ c', c' ≠ c0 → alookup d' c' = alookup d c') →
      acontains (compileStep group d c0) c = (acontains d c || decide (c = c0)) := by
    intro inn' d' heq hsame
    rw [heq]
    unfold acontains
    rw [alookup_aset]
    by_cases hc : c = c0
    · subst hc
      simp
    · rw [if_neg (fun h => hc h.symm), hsame c hc]
      simp [hc]
  cases hd : alookup d c0 with
  | none =>
      refine main _ _ (compileStep_of_bucket_absent hd) ?_
      intro c' hc'
      rw [alookup_aset, if_neg (fun h => hc' h.symm)]
  | some inn =>
      cases hin : alookup inn group with
      | none => exact main _ _ (compileStep_of_species_absent hd hin) (fun _ _ => rfl)
      | some w => exact main _ _ (compileStep_of_species_present hd hin) (fun _ _ => rfl)

theorem innerLookup_compileStep (group : String) (d : Agg) (c0 c : Int) (g : String) :
    innerLookup (compileStep group d c0) c g =
      if c = c0 ∧ g = group then some ((innerLookup d c g).getD 0 + 1)
      else innerLookup d c g := by
  by_cases hc : c = c0
  · subst hc
    by_cases hg : g = group
    · subst hg
      cases hd : alookup d c with
      | none =>
          rw [compileStep_of_bucket_absent hd]
          simp [innerLookup, alookup_aset, alookup_cons, hd]
      | some inn =>
          cases hin : alookup inn g with
          | none =>
              rw [compileStep_of_species_absent hd hin]
              simp [innerLookup, alookup_aset, alookup_cons, hd, hin]
          | some w =>
              rw [compileStep_of_species_present hd hin]
              simp [innerLookup, alookup_aset, hd, hin]
    · have hg2 : ¬ (group = g) := fun h => hg h.symm
      cases hd : alookup d c with
      | none =>
          rw [compileStep_of_bucket_absent hd]
          simp [innerLookup, alookup_aset, alookup_cons, hd, hg, hg2]
      | some inn =>
          cases hin : alookup inn group with
          | none =>
              rw [compileStep_of_species_absent hd hin]
              simp [innerLookup, alookup_aset, hd, hin, hg, hg2]
          | some w =>
              rw [compileStep_of_species_present hd hin]
              simp [innerLookup, alookup_aset, hd, hg, hg2]
  · have harm : ∀ inn' d', compileStep group d c0 = aset d' c0 inn' →
        (∀ c', c' ≠ c0 → alookup d' c' = alookup d c') →
        innerLookup (compileStep group d c0) c g = innerLookup d c g := by
      intro inn' d' heq hsame
      rw [heq]
      unfold innerLookup
      rw [alookup_aset, if_neg (fun h => hc h.symm), hsame c hc]
    rw [if_neg (fun h => hc h.1)]
    cases hd : alookup d c0 with
    | none =>
        refine harm _ _ (compileStep_of_bucket_absent hd) ?_
        intro c' hc'
        rw [alookup_aset, if_neg (fun h => hc' h.symm)]
    | some inn =>
        cases hin : alookup inn group with
        | none => exact harm _ _ (compileStep_of_species_absent hd hin) (fun _ _ => rfl)
        | some w => exact harm _ _ (compileStep_of_species_present hd hin) (fun _ _ => rfl)

theorem countVal_cons (p : String × Int) (t : List (String × Int)) (c : Int) :
    countVal (p :: t) c = countVal t c + if p.2 = c then 1 else 0 := by
  unfold countVal
  by_cases h : p.2 = c <;> simp [List.filter_cons, h]

theorem innerLookup_compile (t : List (String × Int)) (d : Agg) (sp : String)
    (c : Int) (g : String) :
    innerLookup (compile_gene_snp t d sp) c g =
      if g = sp ∧ countVal t c ≠ 0 then
        some ((innerLookup d c g).getD 0 + (countVal t c : Int))
      else innerLookup d c g := by
  induction t generalizing d with
  | nil => simp [compile_gene_snp, countVal]
  | cons p t ih =>
      have hstep : compile_gene_snp (p :: t) d sp
          = compile_gene_snp t (compileStep sp d p.2) sp := rfl
      rw [hstep, ih, countVal_cons, innerLookup_compileStep]
      by_cases hg : g = sp
      · subst hg
        by_cases hpc : p.2 = c
        · subst hpc
          by_cases ht : countVal t p.2 = 0
          · simp [ht]
          · simp [ht]
            omega
        · have hcp : ¬ (c = p.2) := fun h => hpc h.symm
          simp [hcp, hpc]
      · simp [hg]

theorem acontains_compile (t : List (String × Int)) (d : Agg) (sp : String) (c : Int) :
    acontains (compile_gene_snp t d sp) c = (acontains d c || decide (countVal t c ≠ 0)) := by
  induction t generalizing d with
  | nil => simp [compile_gene_snp, countVal]
  | cons p t ih =>
      have hstep : compile_gene_snp (p :: t) d sp
          = compile_gene_snp t (compileStep sp d p.2) sp := rfl
      rw [hstep, ih, acontains_compileStep, countVal_cons]
      by_cases hpc : p.2 = c
      · subst hpc
        by_cases ht : countVal t p.2 = 0 <;> simp [ht]
      · have hne : ¬ (c = p.2) := fun h => hpc h.symm
        simp [hne, hpc]

/-- C7: folding two (species label, gene-to-SNP-count table) pairs into any
starting aggregate in either order yields the same aggregate when compared as
a mapping of mappings. -/
theorem compile_fold_comm (t1 t2 : List (String × Int)) (s1 s2 : String) (d : Agg) :
    EquivAgg (compile_gene_snp t2 (compile_gene_snp t1 d s1) s2)
             (compile_gene_snp t1 (compile_gene_snp t2 d s2) s1) := by
  intro c
  constructor
  · rw [acontains_compile, acontains_compile, acontains_compile, acontains_compile]
    cases acontains d c <;> simp [Bool.or_comm, Bool.or_assoc, Bool.or_left_comm]
  · intro g
    rw [innerLookup_compile, innerLookup_compile, innerLookup_compile, innerLookup_compile]
    by_cases h1 : g = s1
    · subst h1
      by_cases h2 : g = s2
      · subst h2
        by_cases k1 : countVal t1 c = 0 <;> by_cases k2 : countVal t2 c = 0 <;>
          simp [k1, k2] <;> omega
      · have h2' : ¬ (s2 = g) := fun h => h2 h.symm
        by_cases k1 : countVal t1 c = 0 <;> by_cases k2 : countVal t2 c = 0 <;>
          simp [h2, h2', k1, k2]
    · by_cases h2 : g = s2
      · subst h2
        have h1' : ¬ (s1 = g) := fun h => h1 h.symm
        by_cases k1 : countVal t1 c = 0 <;> by_cases k2 : countVal t2 c = 0 <;>
          simp [h1, h1', k1, k2]
      · simp [h1, h2]

/-- C8: folding a gene table into an empty aggregate counts occurrences per
SNP-count for the species label: the bucket entry for the species equals the
number of table entries with that count (absent when zero); in particular the
table g1:3, g2:3, g3:5 for species A folds to the aggregate 3:(A:2), 5:(A:1). -/
theorem compile_counts :
    (∀ (t : List (String × Int)) (sp : String) (c : Int),
        innerLookup (compile_gene_snp t [] sp) c sp =
          if countVal t c = 0 then none else some ((countVal t c : Int)))
    ∧ compile_gene_snp [("g1", 3), ("g2", 3), ("g3", 5)] [] "A"
        = [(3, [("A", 2)]), (5, [("A", 1)])] := by
  constructor
  · intro t sp c
    rw [innerLookup_compile]
    by_cases h : countVal t c = 0 <;> simp [h, innerLookup]
  · rfl

/-! ## The cumulative transform (src/main.py, `generate_cumulative_list`, lines 340-372) -/

/-- Running totals: element `i` is `tot` plus the sum of the first `i + 1`
elements of the list, mirroring the `tot` accumulator of the source loop. -/
def runTotals (tot : Int) : List Int → List Int
  | [] => []
  | x :: xs => (tot + x) :: runTotals (tot + x) xs

/-- `generate_cumulative_list` (source lines 340-372).  When `reversed_` is
set the index range `-1, -2, ..., -len` visits the list back to front, so the
accumulation runs over the reversed list and the result is reversed again at
the end. -/
def generate_cumulative_list (list_of_numbers : List Int) (reversed_ : Bool := false) :
    List Int :=
  if reversed_ then (runTotals 0 list_of_numbers.reverse).reverse
  else runTotals 0 list_of_numbers

theorem runTotals_length (l : List Int) : ∀ tot, (runTotals tot l).length = l.length := by
  induction l with
  | nil => intro tot; rfl
  | cons x xs ih => intro tot; simp [runTotals, ih]

theorem runTotals_getElem? (l : List Int) : ∀ (tot : Int) (i : Nat), i < l.length →
    (runTotals tot l)[i]? = some (tot + (l.take (i + 1)).sum) := by
  induction l with
  | nil => intro tot i h; simp at h
  | cons x xs ih =>
      intro tot i h
      cases i with
      | zero => simp [runTotals]
      | succ j =>
          have hj : j < xs.length := by simpa using h
          simp only [runTotals, List.getElem?_cons_succ, ih (tot + x) j hj,
            List.take_succ_cons, List.sum_cons]
          congr 1
          ring

theorem runTotals_append (a b : List Int) : ∀ tot,
    runTotals tot (a ++ b) = runTotals tot a ++ runTotals (tot + a.sum) b := by
  induction a with
  | nil => intro tot; simp [runTotals]
  | cons x xs ih =>
      intro tot
      simp only [List.cons_append, runTotals, List.sum_cons, List.append_eq]
      rw [← add_assoc, ih (tot + x)]

theorem runTotals_getLast? (l : List Int) : ∀ tot, l ≠ [] →
    (runTotals tot l).getLast? = some (tot + l.sum) := by
  induction l with
  | nil => intro tot h; exact absurd rfl h
  | cons x xs ih =>
      intro tot _
      cases xs with
      | nil => simp [runTotals]
      | cons y ys =>
          have hne : (y :: ys) ≠ [] := by simp
          simp only [runTotals, List.getLast?_cons_cons]
          rw [show (tot + x + y) :: runTotals (tot + x + y) ys
                = runTotals (tot + x) (y :: ys) from rfl]
          rw [ih (tot + x) hne]
          simp [add_assoc]

theorem gen_true_cons (x : Int) (xs : List Int) :
    generate_cumulative_list (x :: xs) true = (xs.sum + x) :: generate_cumulative_list xs true := by
  unfold generate_cumulative_list
  simp only [if_pos rfl, List.reverse_cons, runTotals_append]
  simp [runTotals, List.sum_reverse]

theorem gen_true_getElem? (l : List Int) : ∀ i : Nat, i < l.length →
    (generate_cumulative_list l true)[i]? = some ((l.drop i).sum) := by
  induction l with
  | nil => intro i h; simp at h
  | cons x xs ih =>
      intro i h
      rw [gen_true_cons]
      cases i with
      | zero => simp [add_comm]
      | succ j =>
          have hj : j < xs.length := by simpa using h
          simp [ih j hj]

/-- C4: the cumulative transform is length preserving; forward mode yields the
prefix sums, reverse mode the suffix sums; for a non-empty list the last
forward element and the first reverse element both equal the total sum. -/
theorem cumulative_spec (l : List Int) :
    (generate_cumulative_list l false).length = l.length
    ∧ (generate_cumulative_list l true).length = l.length
    ∧ (∀ i : Nat, i < l.length →
        (generate_cumulative_list l false)[i]? = some ((l.take (i + 1)).sum))
    ∧ (∀ i : Nat, i < l.length →
        (generate_cumulative_list l true)[i]? = some ((l.drop i).sum))
    ∧ (l ≠ [] →
        (generate_cumulative_list l false).getLast? = some l.sum
        ∧ (generate_cumulative_list l true).head? = some l.sum) := by
  refine ⟨?_, ?_, ?_, ?_, ?_⟩
  · simp [generate_cumulative_list, runTotals_length]
  · simp [generate_cumulative_list, runTotals_length]
  · intro i h
    have h2 := runTotals_getElem? l 0 i h
    simpa [generate_cumulative_list] using h2
  · exact gen_true_getElem? l
  · intro hne
    constructor
    · have h2 := runTotals_getLast? l 0 hne
      simpa [generate_cumulative_list] using h2
    · cases l with
      | nil => exact absurd rfl hne
      | cons x xs =>
          rw [gen_true_cons]
          simp [add_comm]

/-- C4 witness: the general cumulative theorem evaluated on the concrete list
0,5,6,1 at index 2 (forward), index 1 (reverse), last forward element and
first reverse element. -/
theorem cumulative_spec_witness :
    (generate_cumulative_list [0, 5, 6, 1] false)[2]? = some 11
    ∧ (generate_cumulative_list [0, 5, 6, 1] true)[1]? = some 12
    ∧ (generate_cumulative_list [0, 5, 6, 1] false).getLast? = some 12
    ∧ (generate_cumulative_list [0, 5, 6, 1] true).head? = some 12 := by
  refine ⟨?_, ?_, ?_, ?_⟩
  · exact ((cumulative_spec [0, 5, 6, 1]).2.2.1 2 (by decide)).trans (by decide)
  · exact ((cumulative_spec [0, 5, 6, 1]).2.2.2.1 1 (by decide)).trans (by decide)
  · exact (((cumulative_spec [0, 5, 6, 1]).2.2.2.2 (by decide)).1).trans (by decide)
  · exact (((cumulative_spec [0, 5, 6, 1]).2.2.2.2 (by decide)).2).trans (by decide)

/-- C3 (counterexample): the cumulative transform on 0,5,6,1 with reverse set
does not return 12,7,1,1 as the spec example states. -/
theorem cumulative_example_ne :
    generate_cumulative_list [0, 5, 6, 1] true ≠ [12, 7, 1, 1] := by decide

/-- C3 (amended): the cumulative transform on 0,5,6,1 with reverse set returns
the suffix sums 12,12,7,1, matching the source docstring example. -/
theorem cumulative_example :
    generate_cumulative_list [0, 5, 6, 1] true = [12, 12, 7, 1] := by rfl

/-! ## The matrix builder (src/main.py, `make_data_matrix`, lines 256-337) -/

/-- Python exceptions raised by `make_data_matrix`: comparing `None` with an
integer raises TypeError; indexing an empty list raises IndexError. -/
inductive PyError where
  | typeError
  | indexError
  deriving DecidableEq

/-- Python `row[-1] = v`: fails on an empty list, otherwise replaces the last
element. -/
def setLast (l : List Int) (v : Int) : Option (List Int) :=
  if l.isEmpty then none else some (l.dropLast ++ [v])

/-- First-failure map over a list; `none` stands for an uncaught IndexError. -/
def mapMOpt {α β : Type} (f : α → Option β) : List α → Option (List β)
  | [] => some []
  | x :: xs =>
    match f x, mapMOpt f xs with
    | some y, some ys => some (y :: ys)
    | _, _ => none

/-- Ascending key order produced by Python `sorted(compiled_dict)`. -/
def sortKeys (d : Agg) : List Int :=
  List.insertionSort (fun a b => a ≤ b) (d.map Prod.fst)

/-- Python `list(range(a, b))` over integers. -/
def intRange (a b : Int) : List Int :=
  (List.range (b - a).toNat).map (fun i : Nat => a + (i : Int))

/-- Loop body over one group (source lines 322-327): extend the row by the
missing values, then overwrite the last cell when the group occurs at the
current SNP-count. -/
def groupStep (group_at_this_position : List (String × Int)) (missing : List Int)
    (group_name : String) (row : List Int) : Option (List Int) :=
  let row2 := row ++ missing
  match alookup group_at_this_position group_name with
  | some v => setLast row2 v
  | none => some row2

/-- The fill loop of `make_data_matrix` (source lines 311-330): iterate over
the sorted SNP-counts, extending every row.  Every visited `x` is a key of
`compiled_dict`, so the `getD []` never falls back to its default. -/
def fillLoop (compiled_dict : Agg) (simplified : Bool) (groups : List String) :
    List (List Int) → Int → List Int → Option (List (List Int))
  | data, _, [] => some data
  | data, last_x_value, x :: xs =>
    let group_at_this_position := (alookup compiled_dict x).getD []
    let missing := List.replicate (if simplified then 1 else (x - last_x_value).toNat) 0
    match mapMOpt (fun p => groupStep group_at_this_position missing p.1 p.2)
        (groups.zip data) with
    | some data2 => fillLoop compiled_dict simplified groups data2 x xs
    | none => none

/-- Per-row version of the fill loop, used to reason about `fillLoop` one
species at a time. -/
def rowLoop (compiled_dict : Agg) (simplified : Bool) (g : String) :
    List Int → Int → List Int → Option (List Int)
  | row, _, [] => some row
  | row, last_x_value, x :: xs =>
    let group_at_this_position := (alookup compiled_dict x).getD []
    let missing := List.replicate (if simplified then 1 else (x - last_x_value).toNat) 0
    match groupStep group_at_this_position missing g row with
    | some r => rowLoop compiled_dict simplified g r x xs
    | none => none

/-- `make_data_matrix` (source lines 256-337).  `group :: groups` is the
species list (the Python signature demands at least one group).  A `none`
`max_length` reproduces the Python default: the comparison `max_length <= 0`
then raises TypeError.  The dense-mode legend reads `sorted_x_values[-1]`,
an IndexError when no SNP-count survives. -/
def make_data_matrix (compiled_dict : Agg) (group : String) (groups : List String)
    (simplified : Bool := true) (max_length : Option Int := none) :
    Except PyError (List (List Int) × List Int) :=
  match max_length with
  | none => .error .typeError
  | some m =>
    let max_length2 : Option Int := if m ≤ 0 then none else some m
    let groups2 : List String := group :: groups
    let data : List (List Int) := groups2.map (fun _ => [])
    let sorted0 : List Int := sortKeys compiled_dict
    let sorted_x_values : List Int :=
      match max_length2 with
      | some m2 => if m2 ≤ (sorted0.length : Int) then sorted0.take m2.toNat else sorted0
      | none => sorted0
    match fillLoop compiled_dict simplified groups2 data 0 sorted_x_values with
    | none => .error .indexError
    | some data2 =>
      if simplified then .ok (data2, sorted_x_values)
      else
        match sorted_x_values.getLast? with
        | none => .error .indexError
        | some last => .ok (data2, intRange 1 (last + 1))

/-- The aggregate of the worked example in spec section 8:
1:(E:5), 2:(E:3, H:4), 4:(E:1, H:1). -/
def exampleAgg : Agg :=
  [(1, [("E", 5)]), (2, [("E", 3), ("H", 4)]), (4, [("E", 1), ("H", 1)])]

theorem setLast_concat (l : List Int) (a v : Int) :
    setLast (l ++ [a]) v = some (l ++ [v]) := by
  unfold setLast
  rw [if_neg (by simp), List.dropLast_concat]

theorem setLast_length {l r : List Int} {v : Int} (h : setLast l v = some r) :
    r.length = l.length := by
  unfold setLast at h
  by_cases he : l.isEmpty
  · rw [if_pos he] at h
    cases h
  · rw [if_neg he] at h
    have hr : r = l.dropLast ++ [v] := by
      injection h with h2
      exact h2.symm
    subst hr
    have hne : l ≠ [] := by simpa [List.isEmpty_iff] using he
    have hpos := List.length_pos.mpr hne
    simp [List.length_dropLast]
    omega

theorem groupStep_replicate (inner : List (String × Int)) (g : String) (row : List Int)
    {k : Nat} (hk : k ≠ 0) :
    groupStep inner (List.replicate k 0) g row
      = some ((row ++ List.replicate (k - 1) 0) ++ [(alookup inner g).getD 0]) := by
  obtain ⟨k', rfl⟩ : ∃ k', k = k' + 1 := ⟨k - 1, by omega⟩
  unfold groupStep
  rw [List.replicate_succ' k' ((0 : Int))]
  cases hin : alookup inner g with
  | some v =>
      simp only [hin, Option.getD_some, ← List.append_assoc]
      rw [setLast_concat]
      simp
  | none =>
      simp only [hin, Option.getD_none, ← List.append_assoc]
      simp

theorem groupStep_nil (inner : List (String × Int)) (g : String) :
    groupStep inner [] g [] = if acontains inner g then none else some [] := by
  unfold groupStep acontains setLast
  cases hin : alookup inner g <;> simp

theorem mapMOpt_ok_of_all {α β : Type} (f : α → Option β) (h : α → β) :
    ∀ l : List α, (∀ a ∈ l, f a = some (h a)) → mapMOpt f l = some (l.map h) := by
  intro l
  induction l with
  | nil => intro _; rfl
  | cons x xs ih =>
      intro hall
      have hx := hall x (List.mem_cons_self x xs)
      have hxs := ih (fun a ha => hall a (List.mem_cons_of_mem x ha))
      simp [mapMOpt, hx, hxs]

theorem mapMOpt_length {α β : Type} (f : α → Option β) :
    ∀ (l : List α) (ys : List β), mapMOpt f l = some ys → ys.length = l.length := by
  intro l
  induction l with
  | nil =>
      intro ys h
      cases h
      rfl
  | cons x xs ih =>
      intro ys h
      unfold mapMOpt at h
      cases hx : f x with
      | none => rw [hx] at h; cases h
      | some y =>
          rw [hx] at h
          cases hxs : mapMOpt f xs with
          | none => rw [hxs] at h; cases h
          | some ys' =>
              rw [hxs] at h
              cases h
              simp [ih ys' hxs]

theorem mapMOpt_mem {α β : Type} (f : α → Option β) :
    ∀ (l : List α) (ys : List β), mapMOpt f l = some ys →
      ∀ y ∈ ys, ∃ a ∈ l, f a = some y := by
  intro l
  induction l with
  | nil =>
      intro ys h y hy
      cases h
      cases hy
  | cons x xs ih =>
      intro ys h y hy
      unfold mapMOpt at h
      cases hx : f x with
      | none => rw [hx] at h; cases h
      | some y' =>
          rw [hx] at h
          cases hxs : mapMOpt f xs with
          | none => rw [hxs] at h; cases h
          | some ys' =>
              rw [hxs] at h
              cases h
              rcases List.mem_cons.mp hy with h1 | h1
              · exact ⟨x, List.mem_cons_self x xs, by rw [hx, h1]⟩
              · obtain ⟨a, ha, hfa⟩ := ih ys' hxs y h1
                exact ⟨a, List.mem_cons_of_mem x ha, hfa⟩

theorem mapMOpt_none_of_mem {α β : Type} (f : α → Option β) :
    ∀ (l : List α) (a : α), a ∈ l → f a = none → mapMOpt f l = none := by
  intro l
  induction l with
  | nil => intro a ha; cases ha
  | cons x xs ih =>
      intro a ha hfa
      rcases List.mem_cons.mp ha with h1 | h1
      · subst h1
        cases hm : mapMOpt f xs <;> simp [mapMOpt, hfa, hm]
      · have hrec := ih a h1 hfa
        cases hx : f x <;> simp [mapMOpt, hx, hrec]

theorem mapMOpt_map {α γ β : Type} (f : γ → Option β) (e : α → γ) :
    ∀ l : List α, mapMOpt f (l.map e) = mapMOpt (fun a => f (e a)) l := by
  intro l
  induction l with
  | nil => rfl
  | cons x xs ih => simp only [List.map_cons, mapMOpt, ih]

theorem zip_map_blank (gs : List String) :
    gs.zip (gs.map (fun _ => ([] : List Int))) = gs.map (fun g => (g, ([] : List Int))) := by
  induction gs with
  | nil => rfl
  | cons x xs ih => simp only [List.map_cons, List.zip_cons_cons, ih]

theorem rowLoop_cons (cd : Agg) (s : Bool) (g : String) (row : List Int) (last x : Int)
    (xs : List Int) :
    rowLoop cd s g row last (x :: xs)
      = (groupStep ((alookup cd x).getD [])
            (List.replicate (if s then 1 else (x - last).toNat) 0) g row).bind
          (fun r => rowLoop cd s g r x xs) := by
  simp only [rowLoop]
  cases groupStep ((alookup cd x).getD [])
      (List.replicate (if s then 1 else (x - last).toNat) 0) g row <;> rfl

theorem mapMOpt_zip_bind (f : String × List Int → Option (List Int))
    (h : String → List Int → Option (List Int)) :
    ∀ (gs : List String) (data : List (List Int)),
      mapMOpt (fun p => (f p).bind (fun r => h p.1 r)) (gs.zip data)
        = (mapMOpt f (gs.zip data)).bind
            (fun d2 => mapMOpt (fun p => h p.1 p.2) (gs.zip d2)) := by
  intro gs
  induction gs with
  | nil => intro data; rfl
  | cons g gs ih =>
      intro data
      cases data with
      | nil => rfl
      | cons row data =>
          simp only [List.zip_cons_cons]
          cases hf : f (g, row) with
          | none =>
              cases hfL : mapMOpt f (gs.zip data) <;>
                simp [mapMOpt, hf, hfL]
          | some r =>
              cases hh : h g r with
              | none =>
                  cases hfL : mapMOpt f (gs.zip data) <;>
                    simp [mapMOpt, hf, hh, hfL, List.zip_cons_cons]
              | some r2 =>
                  cases hfL : mapMOpt f (gs.zip data) with
                  | none =>
                      have hL : mapMOpt (fun p => (f p).bind fun r => h p.1 r) (gs.zip data)
                          = none := by
                        rw [ih data, hfL]
                        rfl
                      simp only [mapMOpt, hf, hh, hL, hfL, Option.some_bind, Option.none_bind]
                  | some d2 =>
                      have hL : mapMOpt (fun p => (f p).bind fun r => h p.1 r) (gs.zip data)
                          = mapMOpt (fun p => h p.1 p.2) (gs.zip d2) := by
                        rw [ih data, hfL]
                        rfl
                      simp only [mapMOpt, hf, hh, hL, hfL, Option.some_bind,
                        List.zip_cons_cons]
                      cases hHL : mapMOpt (fun p => h p.1 p.2) (gs.zip d2) <;>
                        simp [mapMOpt, hHL, hh, ← List.zip_eq_zipWith]

theorem map_snd_zip_eq (gs : List String) :
    ∀ data : List (List Int), data.length = gs.length →
      (gs.zip data).map Prod.snd = data :=
  fun data hlen => List.map_snd_zip gs data (le_of_eq hlen)

theorem fillLoop_eq_rowLoop (cd : Agg) (s : Bool) (gs : List String) :
    ∀ (xs : List Int) (data : List (List Int)) (last : Int), data.length = gs.length →
      fillLoop cd s gs data last xs
        = mapMOpt (fun p => rowLoop cd s p.1 p.2 last xs) (gs.zip data) := by
  intro xs
  induction xs with
  | nil =>
      intro data last hlen
      have h1 : mapMOpt (fun p : String × List Int => some p.2) (gs.zip data)
          = some ((gs.zip data).map Prod.snd) :=
        mapMOpt_ok_of_all _ _ _ (fun a _ => rfl)
      have h2 : (fun p : String × List Int => rowLoop cd s p.1 p.2 last [])
          = (fun p : String × List Int => some p.2) := rfl
      rw [show fillLoop cd s gs data last [] = some data from rfl, h2, h1,
        map_snd_zip_eq gs data hlen]
  | cons x xs ih =>
      intro data last hlen
      simp only [fillLoop]
      have hrw : (fun p : String × List Int => rowLoop cd s p.1 p.2 last (x :: xs))
          = fun p : String × List Int =>
              (groupStep ((alookup cd x).getD [])
                  (List.replicate (if s then 1 else (x - last).toNat) 0) p.1 p.2).bind
                (fun r => rowLoop cd s p.1 r x xs) := by
        funext p
        exact rowLoop_cons cd s p.1 p.2 last x xs
      have hzb := mapMOpt_zip_bind
          (fun p : String × List Int => groupStep ((alookup cd x).getD [])
            (List.replicate (if s then 1 else (x - last).toNat) 0) p.1 p.2)
          (fun a r => rowLoop cd s a r x xs) gs data
      rw [hrw]
      simp only [hzb]
      cases hM : mapMOpt
          (fun p => groupStep ((alookup cd x).getD [])
            (List.replicate (if s then 1 else (x - last).toNat) 0) p.1 p.2)
          (gs.zip data) with
      | none => rfl
      | some data2 =>
          have hlen2 : data2.length = gs.length := by
            have := mapMOpt_length _ _ _ hM
            rw [this, List.length_zip, hlen]
            simp
          simpa using ih data2 x hlen2

theorem intRange_empty {a b : Int} (h : b ≤ a) : intRange a b = [] := by
  unfold intRange
  have h2 : (b - a).toNat = 0 := by omega
  rw [h2]
  rfl

theorem length_intRange (a b : Int) : (intRange a b).length = (b - a).toNat := by
  simp [intRange]

theorem mem_intRange {a b p : Int} : p ∈ intRange a b ↔ a ≤ p ∧ p < b := by
  unfold intRange
  simp only [List.mem_map, List.mem_range]
  constructor
  · rintro ⟨i, hi, rfl⟩
    omega
  · rintro ⟨h1, h2⟩
    exact ⟨(p - a).toNat, by omega, by omega⟩

theorem intRange_succ_right {a b : Int} (h : a ≤ b) :
    intRange a (b + 1) = intRange a b ++ [b] := by
  unfold intRange
  have h1 : (b + 1 - a).toNat = (b - a).toNat + 1 := by omega
  rw [h1, List.range_succ, List.map_append]
  have h2 : a + (((b - a).toNat : Nat) : Int) = b := by omega
  simp only [List.map_cons, List.map_nil]
  rw [h2]

theorem intRange_append_nat (a b : Int) : ∀ n : Nat, a ≤ b →
    intRange a b ++ intRange b (b + (n : Int)) = intRange a (b + (n : Int)) := by
  intro n
  induction n with
  | zero =>
      intro _
      simp [intRange_empty (le_refl b)]
  | succ k ihk =>
      intro h
      have hc : (b + ((k : Nat) + 1 : Nat) : Int) = (b + (k : Int)) + 1 := by
        push_cast
        ring
      rw [hc, intRange_succ_right (by omega), intRange_succ_right (le_trans h (by omega)),
        ← List.append_assoc, ihk h]

theorem intRange_append {a b c : Int} (h1 : a ≤ b) (h2 : b ≤ c) :
    intRange a b ++ intRange b c = intRange a c := by
  obtain ⟨n, rfl⟩ : ∃ n : Nat, c = b + (n : Int) := ⟨(c - b).toNat, by omega⟩
  exact intRange_append_nat a b n h1

theorem getLastD_mem_or (l : List Int) (d : Int) : l.getLastD d = d ∨ l.getLastD d ∈ l := by
  induction l generalizing d with
  | nil => exact Or.inl rfl
  | cons y ys ih =>
      rw [List.getLastD_cons]
      rcases ih y with h | h
      · right
        rw [h]
        exact List.mem_cons_self _ _
      · right
        exact List.mem_cons_of_mem _ h

theorem le_getLastD {x : Int} {xs : List Int} (h : ∀ y ∈ xs, x < y) : x ≤ xs.getLastD x := by
  rcases getLastD_mem_or xs x with h1 | h1
  · omega
  · exact le_of_lt (h _ h1)

theorem chain_lt_forall {x : Int} {xs : List Int}
    (h : List.Chain (fun a b : Int => a < b) x xs) : ∀ y ∈ xs, x < y := by
  have hp := List.chain_iff_pairwise.mp h
  exact (List.pairwise_cons.mp hp).1

theorem rowLoop_simplified (cd : Agg) (g : String) :
    ∀ (xs : List Int) (row : List Int) (last : Int),
      rowLoop cd true g row last xs
        = some (row ++ xs.map (fun x => lookupCount cd x g)) := by
  intro xs
  induction xs with
  | nil =>
      intro row last
      simp [rowLoop]
  | cons x xs ih =>
      intro row last
      rw [rowLoop_cons]
      have h1 : (if (true : Bool) then 1 else (x - last).toNat) = 1 := rfl
      rw [h1, groupStep_replicate _ _ _ (by omega : (1 : Nat) ≠ 0)]
      simp only [Option.some_bind]
      rw [ih]
      simp [lookupCount, innerLookup, List.append_assoc]

theorem groupStep_length {inner : List (String × Int)} {miss : List Int} {g : String}
    {row row2 : List Int} (h : groupStep inner miss g row = some row2) :
    row2.length = row.length + miss.length := by
  unfold groupStep at h
  cases hin : alookup inner g with
  | none =>
      rw [hin] at h
      injection h with h2
      rw [← h2]
      simp
  | some v =>
      rw [hin] at h
      have h2 := setLast_length h
      simpa using h2

theorem dense_segment (cd : Agg) (g : String) (last x : Int) (xs : List Int)
    (hlx : last < x) (hxs : ∀ y ∈ xs, x < y) :
    (intRange (last + 1) (x + 1)).map
        (fun p => if p ∈ x :: xs then lookupCount cd p g else 0)
      = List.replicate ((x - last).toNat - 1) 0 ++ [lookupCount cd x g] := by
  rw [intRange_succ_right (by omega : last + 1 ≤ x), List.map_append]
  congr 1
  · apply List.eq_replicate_iff.mpr
    constructor
    · rw [List.length_map, length_intRange]
      omega
    · intro b hb
      obtain ⟨p, hp, rfl⟩ := List.mem_map.mp hb
      have hpr := mem_intRange.mp hp
      rw [if_neg]
      intro hmem
      rcases List.mem_cons.mp hmem with h | h
      · omega
      · exact absurd (hxs p h) (by omega)
  · simp [List.mem_cons_self]

theorem rowLoop_dense (cd : Agg) (g : String) :
    ∀ (xs : List Int) (last : Int) (row : List Int),
      List.Chain (fun a b : Int => a < b) last xs →
      rowLoop cd false g row last xs
        = some (row ++ (intRange (last + 1) (xs.getLastD last + 1)).map
            (fun p => if p ∈ xs then lookupCount cd p g else 0)) := by
  intro xs
  induction xs with
  | nil =>
      intro last row _
      rw [show ([] : List Int).getLastD last = last from rfl,
        intRange_empty (le_refl (last + 1))]
      simp [rowLoop]
  | cons x xs ih =>
      intro last row hch
      have hlx : last < x := (List.chain_cons.mp hch).1
      have hch2 := (List.chain_cons.mp hch).2
      have hxs : ∀ y ∈ xs, x < y := chain_lt_forall hch2
      rw [rowLoop_cons]
      have h1 : (if (false : Bool) then 1 else (x - last).toNat) = (x - last).toNat := rfl
      rw [h1, groupStep_replicate _ _ _ (by omega : (x - last).toNat ≠ 0)]
      simp only [Option.some_bind]
      rw [ih x _ hch2]
      rw [List.getLastD_cons]
      have hxe : x ≤ xs.getLastD x := le_getLastD hxs
      rw [← intRange_append (by omega : last + 1 ≤ x + 1)
        (by omega : x + 1 ≤ xs.getLastD x + 1), List.map_append]
      rw [dense_segment cd g last x xs hlx hxs]
      have htail : (intRange (x + 1) (xs.getLastD x + 1)).map
            (fun p => if p ∈ x :: xs then lookupCount cd p g else 0)
          = (intRange (x + 1) (xs.getLastD x + 1)).map
            (fun p => if p ∈ xs then lookupCount cd p g else 0) := by
        apply List.map_congr_left
        intro p hp
        have hpr := mem_intRange.mp hp
        have hne : p ≠ x := by omega
        by_cases hmem : p ∈ xs
        · rw [if_pos (List.mem_cons_of_mem _ hmem), if_pos hmem]
        · have hnc : p ∉ x :: xs := by
            intro hc
            rcases List.mem_cons.mp hc with h | h
            · exact hne h
            · exact hmem h
          rw [if_neg hnc, if_neg hmem]
      rw [htail]
      simp [List.append_assoc, lookupCount, innerLookup]

theorem rowLoop_dense_length (cd : Agg) (g : String) :
    ∀ (xs : List Int) (last : Int) (row r : List Int),
      (∀ y ∈ xs, last ≤ y) → List.Pairwise (fun a b : Int => a < b) xs →
      rowLoop cd false g row last xs = some r →
      r.length = row.length + (xs.getLastD last - last).toNat := by
  intro xs
  induction xs with
  | nil =>
      intro last row r _ _ h
      have h2 : some row = some r := h
      injection h2 with h3
      rw [← h3]
      simp
  | cons x xs ih =>
      intro last row r hall hpw h
      rw [rowLoop_cons] at h
      have hx : last ≤ x := hall x (List.mem_cons_self x xs)
      have hpx : ∀ y ∈ xs, x < y := (List.pairwise_cons.mp hpw).1
      cases hgs : groupStep ((alookup cd x).getD [])
          (List.replicate (if (false : Bool) then 1 else (x - last).toNat) 0) g row with
      | none =>
          rw [hgs] at h
          cases h
      | some row2 =>
          rw [hgs] at h
          simp only [Option.some_bind] at h
          have hlen2 : row2.length = row.length + (x - last).toNat := by
            have h4 := groupStep_length hgs
            simpa using h4
          have hrec := ih x row2 r (fun y hy => le_of_lt (hpx y hy))
            (List.pairwise_cons.mp hpw).2 h
          have hxe : x ≤ xs.getLastD x := le_getLastD hpx
          rw [List.getLastD_cons, hrec, hlen2]
          omega

theorem sortKeys_sorted (d : Agg) :
    List.Sorted (fun a b : Int => a ≤ b) (sortKeys d) :=
  List.sorted_insertionSort _ _

theorem sortKeys_perm (d : Agg) : (sortKeys d).Perm (d.map Prod.fst) :=
  List.perm_insertionSort _ _

theorem mem_sortKeys {d : Agg} {k : Int} : k ∈ sortKeys d ↔ k ∈ d.map Prod.fst :=
  (sortKeys_perm d).mem_iff

theorem sortKeys_pairwise_lt {d : Agg} (h : (d.map Prod.fst).Nodup) :
    List.Pairwise (fun a b : Int => a < b) (sortKeys d) := by
  have hs : List.Pairwise (fun a b : Int => a ≤ b) (sortKeys d) := sortKeys_sorted d
  have hn : List.Pairwise (fun a b : Int => a ≠ b) (sortKeys d) :=
    ((sortKeys_perm d).nodup_iff).mpr h
  exact (hs.and hn).imp (fun hab => lt_of_le_of_ne hab.1 hab.2)

theorem sortKeys_length (d : Agg) : (sortKeys d).length = d.length := by
  rw [(sortKeys_perm d).length_eq, List.length_map]

theorem chain_zero_of_pos {l : List Int} (hpw : List.Pairwise (fun a b : Int => a < b) l)
    (hpos : ∀ k ∈ l, 1 ≤ k) : List.Chain (fun a b : Int => a < b) 0 l :=
  List.chain_iff_pairwise.mpr
    (List.pairwise_cons.mpr ⟨fun y hy => by have := hpos y hy; omega, hpw⟩)

/-- The SNP-count keys actually iterated by the fill loop: sorted, then
truncated when a positive `max_length` does not exceed their number
(source lines 304-308). -/
def truncKeys (cd : Agg) (m : Int) : List Int :=
  if m ≤ 0 then sortKeys cd
  else if m ≤ ((sortKeys cd).length : Int) then (sortKeys cd).take m.toNat
  else sortKeys cd

theorem make_data_matrix_eq (cd : Agg) (g : String) (gs : List String) (s : Bool) (m : Int) :
    make_data_matrix cd g gs s (some m) =
      match fillLoop cd s (g :: gs) ((g :: gs).map (fun _ => [])) 0 (truncKeys cd m) with
      | none => Except.error PyError.indexError
      | some data2 =>
        if s then Except.ok (data2, truncKeys cd m)
        else
          match (truncKeys cd m).getLast? with
          | none => Except.error PyError.indexError
          | some last => Except.ok (data2, intRange 1 (last + 1)) := by
  by_cases hm : m ≤ 0
  · simp only [make_data_matrix, truncKeys, hm, if_true]
  · simp only [make_data_matrix, truncKeys, hm, if_false]

theorem truncKeys_sublist (cd : Agg) (m : Int) : (truncKeys cd m).Sublist (sortKeys cd) := by
  unfold truncKeys
  split_ifs
  · exact List.Sublist.refl _
  · exact List.take_sublist _ _
  · exact List.Sublist.refl _

theorem truncKeys_pairwise_lt {cd : Agg} (m : Int) (h : (cd.map Prod.fst).Nodup) :
    List.Pairwise (fun a b : Int => a < b) (truncKeys cd m) :=
  List.Pairwise.sublist (truncKeys_sublist cd m) (sortKeys_pairwise_lt h)

theorem mem_of_mem_truncKeys {cd : Agg} {m k : Int} (h : k ∈ truncKeys cd m) :
    k ∈ cd.map Prod.fst :=
  mem_sortKeys.mp ((truncKeys_sublist cd m).subset h)

/-- C1 (amended): on an empty aggregate, with an integer `max_length`, the
matrix build does not raise a dedicated no-data error for both flags: the
simplified build returns one empty row per species and an empty label list,
while the dense build fails with an IndexError when it reads the last sorted
key. -/
theorem make_empty_aggregate (g : String) (gs : List String) (s : Bool) (m : Int) :
    make_data_matrix [] g gs s (some m) =
      if s then Except.ok (((g :: gs).map (fun _ => ([] : List Int))), ([] : List Int))
      else Except.error PyError.indexError := by
  rw [make_data_matrix_eq]
  have ht : truncKeys [] m = [] := by
    unfold truncKeys sortKeys
    simp [List.insertionSort]
  rw [ht]
  rw [show fillLoop [] s (g :: gs) ((g :: gs).map (fun _ => [])) 0 []
      = some ((g :: gs).map (fun _ => [])) from rfl]
  cases s <;> simp

/-- C1 (counterexample): the simplified build on the empty aggregate returns a
matrix instead of failing. -/
theorem make_empty_aggregate_simplified_ok :
    make_data_matrix [] "E" [] true (some 20) = Except.ok ([[]], ([] : List Int)) := by
  rfl

/-- C2 (code evaluated at the failing input): with the declared default
`max_length=None` the build raises TypeError at the comparison
`max_length <= 0` instead of skipping truncation; with an integer
`max_length` the claimed behaviour holds: non-positive values disable
truncation (identical to an uncapped build), and `max_length=2` keeps the two
smallest SNP-counts of the section-8 example, truncating every row and the
labels. -/
theorem make_max_length_behaviour :
    make_data_matrix exampleAgg "E" [] true none = Except.error PyError.typeError
    ∧ make_data_matrix exampleAgg "E" [] true (some 0) = Except.ok ([[5, 3, 1]], [1, 2, 4])
    ∧ make_data_matrix exampleAgg "E" [] true (some (-7)) = Except.ok ([[5, 3, 1]], [1, 2, 4])
    ∧ make_data_matrix exampleAgg "E" [] true (some 2) = Except.ok ([[5, 3]], [1, 2])
    ∧ make_data_matrix exampleAgg "E" ["H"] false (some 2)
        = Except.ok ([[5, 3], [0, 4]], [1, 2]) :=
  ⟨rfl, rfl, rfl, rfl, rfl⟩

/-- C6: in simplified mode, with no truncation, the labels are exactly the
ascending sorted SNP-count keys of a non-empty aggregate and the row of each
species holds its occurrence count at each sorted key, 0 when absent. -/
theorem make_simplified (cd : Agg) (g : String) (gs : List String) (m : Int)
    (hm : m ≤ 0) (hnd : (cd.map Prod.fst).Nodup) (hne : cd ≠ []) :
    make_data_matrix cd g gs true (some m) =
      Except.ok ((g :: gs).map (fun sp => (sortKeys cd).map (fun c => lookupCount cd c sp)),
        sortKeys cd) := by
  rw [make_data_matrix_eq]
  have ht : truncKeys cd m = sortKeys cd := by
    unfold truncKeys
    rw [if_pos hm]
  rw [ht]
  have hfill : fillLoop cd true (g :: gs) ((g :: gs).map (fun _ => [])) 0 (sortKeys cd)
      = some ((g :: gs).map (fun sp => (sortKeys cd).map (fun c => lookupCount cd c sp))) := by
    rw [fillLoop_eq_rowLoop cd true (g :: gs) (sortKeys cd) _ 0 (by simp), zip_map_blank,
      mapMOpt_map]
    apply mapMOpt_ok_of_all _ (fun sp => (sortKeys cd).map (fun c => lookupCount cd c sp))
    intro a _
    exact (rowLoop_simplified cd a (sortKeys cd) [] 0).trans (by rw [List.nil_append])
  rw [hfill]
  rfl

/-- C6 witness: the simplified theorem applied to the section-8 aggregate and
species E yields matrix 5,3,1 with labels 1,2,4. -/
theorem make_simplified_witness :
    make_data_matrix exampleAgg "E" [] true (some 0) = Except.ok ([[5, 3, 1]], [1, 2, 4]) :=
  (make_simplified exampleAgg "E" [] 0 (by decide) (by decide) (by decide)).trans (by rfl)

/-- C5: in dense mode, with no truncation, for a non-empty aggregate whose
SNP-count keys are all at least 1, the labels are exactly the integers from 1
to the maximum present SNP-count, gaps are zero-filled for every species row,
and each row holds the species occurrence count at every column, 0 when
absent. -/
theorem make_dense (cd : Agg) (g : String) (gs : List String) (m : Int)
    (hm : m ≤ 0) (hnd : (cd.map Prod.fst).Nodup)
    (hpos : ∀ k ∈ cd.map Prod.fst, 1 ≤ k) (hne : cd ≠ []) :
    make_data_matrix cd g gs false (some m) =
      Except.ok ((g :: gs).map (fun sp =>
          (intRange 1 ((sortKeys cd).getLastD 0 + 1)).map (fun c => lookupCount cd c sp)),
        intRange 1 ((sortKeys cd).getLastD 0 + 1)) := by
  rw [make_data_matrix_eq]
  have ht : truncKeys cd m = sortKeys cd := by
    unfold truncKeys
    rw [if_pos hm]
  rw [ht]
  have hpw := sortKeys_pairwise_lt hnd
  have hchain : List.Chain (fun a b : Int => a < b) 0 (sortKeys cd) :=
    chain_zero_of_pos hpw (fun k hk => hpos k (mem_sortKeys.mp hk))
  have hrow : ∀ sp : String, rowLoop cd false sp [] 0 (sortKeys cd)
      = some ((intRange 1 ((sortKeys cd).getLastD 0 + 1)).map
          (fun c => lookupCount cd c sp)) := by
    intro sp
    rw [rowLoop_dense cd sp (sortKeys cd) 0 [] hchain, List.nil_append]
    rw [show ((0 : Int) + 1) = 1 from rfl]
    congr 1
    apply List.map_congr_left
    intro p _
    by_cases hmem : p ∈ sortKeys cd
    · rw [if_pos hmem]
    · rw [if_neg hmem]
      have hnm : p ∉ cd.map Prod.fst := fun hc => hmem (mem_sortKeys.mpr hc)
      rw [lookupCount, innerLookup, alookup_eq_none_of_not_mem hnm]
      rfl
  have hfill : fillLoop cd false (g :: gs) ((g :: gs).map (fun _ => [])) 0 (sortKeys cd)
      = some ((g :: gs).map (fun sp =>
          (intRange 1 ((sortKeys cd).getLastD 0 + 1)).map (fun c => lookupCount cd c sp))) := by
    rw [fillLoop_eq_rowLoop cd false (g :: gs) (sortKeys cd) _ 0 (by simp), zip_map_blank,
      mapMOpt_map]
    apply mapMOpt_ok_of_all _ (fun sp =>
      (intRange 1 ((sortKeys cd).getLastD 0 + 1)).map (fun c => lookupCount cd c sp))
    intro a _
    exact hrow a
  rw [hfill]
  have hsne : sortKeys cd ≠ [] := by
    intro hc
    apply hne
    have := sortKeys_length cd
    rw [hc] at this
    cases cd with
    | nil => rfl
    | cons p ps => simp at this
  obtain ⟨lastv, hl⟩ := Option.isSome_iff_exists.mp (List.getLast?_isSome.mpr hsne)
  rw [hl]
  have hld : (sortKeys cd).getLastD 0 = lastv := by
    rw [List.getLastD_eq_getLast?, hl]
    rfl
  rw [hld]
  rfl

/-- C5 witness: the dense theorem applied to the section-8 aggregate and
species E, H yields the zero-filled matrix with labels 1,2,3,4. -/
theorem make_dense_witness :
    make_data_matrix exampleAgg "E" ["H"] false (some 0)
      = Except.ok ([[5, 3, 0, 1], [0, 4, 0, 1]], [1, 2, 3, 4]) :=
  (make_dense exampleAgg "E" ["H"] 0 (by decide) (by decide) (by decide)
    (by decide)).trans (by rfl)

/-- C9: whenever the build succeeds, every row of the returned matrix has the
same length as the returned column-label sequence, for aggregates with
distinct non-negative SNP-count keys, any species sequence, both flags and
any max_length value. -/
theorem make_row_width (cd : Agg) (g : String) (gs : List String) (s : Bool)
    (ml : Option Int) (data : List (List Int)) (labels : List Int)
    (hnd : (cd.map Prod.fst).Nodup) (hpos : ∀ k ∈ cd.map Prod.fst, 0 ≤ k)
    (hok : make_data_matrix cd g gs s ml = Except.ok (data, labels)) :
    ∀ row ∈ data, row.length = labels.length := by
  cases ml with
  | none => exact absurd hok (by simp [make_data_matrix])
  | some m =>
      rw [make_data_matrix_eq] at hok
      have hpw : List.Pairwise (fun a b : Int => a < b) (truncKeys cd m) :=
        truncKeys_pairwise_lt m hnd
      have hpos2 : ∀ k ∈ truncKeys cd m, (0 : Int) ≤ k :=
        fun k hk => hpos k (mem_of_mem_truncKeys hk)
      have hmapeq := fillLoop_eq_rowLoop cd s (g :: gs) (truncKeys cd m)
        ((g :: gs).map (fun _ => [])) 0 (by simp)
      cases hfl : fillLoop cd s (g :: gs) ((g :: gs).map (fun _ => [])) 0 (truncKeys cd m) with
      | none =>
          rw [hfl] at hok
          simp at hok
      | some data2 =>
          rw [hfl] at hok
          rw [hfl] at hmapeq
          have hrows : ∀ row ∈ data2,
              ∃ sp, rowLoop cd s sp [] 0 (truncKeys cd m) = some row := by
            intro row hrow
            obtain ⟨p, hp, hrl⟩ := mapMOpt_mem _ _ _ hmapeq.symm row hrow
            have hp2 := List.of_mem_zip hp
            have hpe : p.2 = [] := by
              obtain ⟨a, _, ha⟩ := List.mem_map.mp hp2.2
              rw [← ha]
            exact ⟨p.1, by rw [← hpe]; exact hrl⟩
          cases s with
          | true =>
              simp only [if_true, Except.ok.injEq, Prod.mk.injEq] at hok
              obtain ⟨hd2, hlab⟩ := hok
              subst hd2
              subst hlab
              intro row hrow
              obtain ⟨sp, hrl⟩ := hrows row hrow
              rw [rowLoop_simplified] at hrl
              injection hrl with h3
              rw [← h3]
              simp
          | false =>
              cases hgl : (truncKeys cd m).getLast? with
              | none =>
                  rw [hgl] at hok
                  simp at hok
              | some lastv =>
                  rw [hgl] at hok
                  simp only [Bool.false_eq_true, if_false, Except.ok.injEq,
                    Prod.mk.injEq] at hok
                  obtain ⟨hd2, hlab⟩ := hok
                  subst hd2
                  subst hlab
                  intro row hrow
                  obtain ⟨sp, hrl⟩ := hrows row hrow
                  have hlen := rowLoop_dense_length cd sp (truncKeys cd m) 0 [] row
                    hpos2 hpw hrl
                  have hld : (truncKeys cd m).getLastD 0 = lastv := by
                    rw [List.getLastD_eq_getLast?, hgl]
                    rfl
                  rw [hlen, hld, length_intRange]
                  simp only [List.length_nil]
                  omega

/-- C9 witness: the row-width theorem applied to the dense section-8 build with
two species: each row has the length of the label list 1,2,3,4. -/
theorem make_row_width_witness :
    ([5, 3, 0, 1] : List Int).length = ([1, 2, 3, 4] : List Int).length
    ∧ ([0, 4, 0, 1] : List Int).length = ([1, 2, 3, 4] : List Int).length :=
  ⟨make_row_width exampleAgg "E" ["H"] false (some 0) [[5, 3, 0, 1], [0, 4, 0, 1]] [1, 2, 3, 4]
      (by decide) (by decide) (by rfl) [5, 3, 0, 1] (by decide),
    make_row_width exampleAgg "E" ["H"] false (some 0) [[5, 3, 0, 1], [0, 4, 0, 1]] [1, 2, 3, 4]
      (by decide) (by decide) (by rfl) [0, 4, 0, 1] (by decide)⟩

theorem fillLoop_zero_head (cd : Agg) (gsAll : List String) (rest : List Int)
    {inn : List (String × Int)} {sp : String}
    (h0 : alookup cd 0 = some inn) (hsp : sp ∈ gsAll) (hc : acontains inn sp = true) :
    fillLoop cd false gsAll (gsAll.map (fun _ => [])) 0 (0 :: rest) = none := by
  have hstep : groupStep ((alookup cd 0).getD [])
      (List.replicate (if (false : Bool) then 1 else ((0 : Int) - 0).toNat) 0) sp []
      = none := by
    rw [h0]
    simp only [Option.getD_some]
    rw [show (List.replicate (if (false : Bool) then 1 else ((0 : Int) - 0).toNat) 0)
        = ([] : List Int) from rfl]
    rw [groupStep_nil, if_pos hc]
  have hmem : (sp, ([] : List Int)) ∈ gsAll.zip (gsAll.map (fun _ => [])) := by
    rw [zip_map_blank]
    exact List.mem_map.mpr ⟨sp, hsp, rfl⟩
  have hnone := mapMOpt_none_of_mem
    (fun p : String × List Int => groupStep ((alookup cd 0).getD [])
      (List.replicate (if (false : Bool) then 1 else ((0 : Int) - 0).toNat) 0) p.1 p.2)
    (gsAll.zip (gsAll.map (fun _ => []))) (sp, ([] : List Int)) hmem hstep
  simp only [fillLoop, hnone]

theorem make_dense_zero_aux (cd : Agg) (g : String) (gs : List String) (m : Int)
    (inn : List (String × Int)) (sp : String)
    (hnd : (cd.map Prod.fst).Nodup) (hpos : ∀ k ∈ cd.map Prod.fst, 0 ≤ k)
    (h0 : alookup cd 0 = some inn) (hsp : sp ∈ g :: gs) (hc : acontains inn sp = true) :
    make_data_matrix cd g gs false (some m) = Except.error PyError.indexError := by
  have h0m : (0 : Int) ∈ sortKeys cd := mem_sortKeys.mpr (mem_of_alookup_eq_some h0)
  obtain ⟨rest, hsk⟩ : ∃ rest, sortKeys cd = 0 :: rest := by
    cases hs : sortKeys cd with
    | nil =>
        rw [hs] at h0m
        cases h0m
    | cons h rest =>
        have hpw := sortKeys_pairwise_lt hnd
        rw [hs] at hpw h0m
        have hhmem : h ∈ cd.map Prod.fst :=
          mem_sortKeys.mp (by rw [hs]; exact List.mem_cons_self _ _)
        have hge : (0 : Int) ≤ h := hpos h hhmem
        rcases List.mem_cons.mp h0m with h1 | h1
        · exact ⟨rest, by rw [← h1]⟩
        · exfalso
          have hlt := (List.pairwise_cons.mp hpw).1 0 h1
          omega
  obtain ⟨rest2, htk⟩ : ∃ rest2, truncKeys cd m = 0 :: rest2 := by
    unfold truncKeys
    rw [hsk]
    by_cases hm : m ≤ 0
    · rw [if_pos hm]
      exact ⟨rest, rfl⟩
    · rw [if_neg hm]
      by_cases hlen2 : m ≤ (((0 : Int) :: rest).length : Int)
      · rw [if_pos hlen2]
        obtain ⟨k, hk⟩ : ∃ k, m.toNat = k + 1 := ⟨m.toNat - 1, by omega⟩
        rw [hk, List.take_succ_cons]
        exact ⟨_, rfl⟩
      · rw [if_neg hlen2]
        exact ⟨rest, rfl⟩
  rw [make_data_matrix_eq, htk, fillLoop_zero_head cd (g :: gs) rest2 h0 hsp hc]

/-- C10: with non-negative SNP-count keys, if the aggregate has a bucket for
count 0 and a requested species occurs in it, the dense build fails with an
out-of-range index error when writing that species first value; consequently
a successful dense build implies that every key at which a requested species
occurs is at least 1. -/
theorem make_dense_zero_bucket :
    (∀ (cd : Agg) (g : String) (gs : List String) (m : Int)
        (inn : List (String × Int)) (sp : String),
      (cd.map Prod.fst).Nodup → (∀ k ∈ cd.map Prod.fst, 0 ≤ k) →
      alookup cd 0 = some inn → sp ∈ g :: gs → acontains inn sp = true →
      make_data_matrix cd g gs false (some m) = Except.error PyError.indexError)
    ∧ (∀ (cd : Agg) (g : String) (gs : List String) (m : Int)
        (data : List (List Int)) (labels : List Int) (k : Int)
        (inn : List (String × Int)) (sp : String),
      (cd.map Prod.fst).Nodup → (∀ k2 ∈ cd.map Prod.fst, 0 ≤ k2) →
      make_data_matrix cd g gs false (some m) = Except.ok (data, labels) →
      alookup cd k = some inn → sp ∈ g :: gs → acontains inn sp = true →
      1 ≤ k) := by
  constructor
  · intro cd g gs m inn sp hnd hpos h0 hsp hc
    exact make_dense_zero_aux cd g gs m inn sp hnd hpos h0 hsp hc
  · intro cd g gs m data labels k inn sp hnd hpos hok hk hsp hc
    by_contra hlt
    push_neg at hlt
    have hk0 : k = 0 := by
      have := hpos k (mem_of_alookup_eq_some hk)
      omega
    subst hk0
    rw [make_dense_zero_aux cd g gs m inn sp hnd hpos hk hsp hc] at hok
    simp at hok

/-- C10 witness: the zero-bucket theorem applied to a two-bucket aggregate with
an occurrence of species E at SNP-count 0: the dense build fails. -/
theorem make_dense_zero_bucket_witness :
    make_data_matrix [(0, [("E", 2)]), (2, [("E", 3)])] "E" [] false (some 0)
      = Except.error PyError.indexError :=
  make_dense_zero_bucket.1 [(0, [("E", 2)]), (2, [("E", 3)])] "E" [] 0 [("E", 2)] "E"
    (by decide) (by decide) (by decide) (by decide) (by decide)
